import Mathlib

/-!
# go-netstat: verification of the socket-table codec and collection pipeline

Shallow embedding of the `go-netstat` repository's core routines:

* the address/line codec (`parseIPv4`, `parseIPv6`, `parseAddr`, the
  `fmt.Sscanf`-based line decoder of `netstat_linux.go`, and the
  token-split line decoder of the sequential variant),
* the concurrent `Netstat` fan-out/fan-in orchestrator of
  `netstat_linux.go` (cancellation modelled by an explicit schedule) and
  the sequential `Netstat` variant,
* process-name extraction (`getProcName`, in both its first-to-last and
  first-to-first variants) and the per-`base` process cache,
* the namespace-name-to-PID resolver (`getPidofNetNsFromProcInodes`).

Go strings and byte slices are modelled as `List Char`; machine integers
as `Nat` (with explicit `2 ^ bits` bounds where the Go code checks them);
fallible functions return `Option`/`Except`.  File systems are modelled
as explicit lookup functions, and goroutine scheduling as explicit
schedule parameters.
-/

namespace GoNetstat

/-- Go strings / byte slices are modelled as lists of characters. -/
abbrev Str := List Char

/-- Decidable equality for `Except` results, so concrete runs can be
checked by `decide`. -/
instance {ε α : Type} [DecidableEq ε] [DecidableEq α] : DecidableEq (Except ε α) := fun x y =>
  match x, y with
  | .ok a, .ok b =>
    if h : a = b then .isTrue (by rw [h]) else .isFalse (by intro hh; cases hh; exact h rfl)
  | .error a, .error b =>
    if h : a = b then .isTrue (by rw [h]) else .isFalse (by intro hh; cases hh; exact h rfl)
  | .ok _, .error _ => .isFalse (by intro hh; cases hh)
  | .error _, .ok _ => .isFalse (by intro hh; cases hh)

/-- Whitespace, as recognised by `strings.Fields` / `fmt` scanning
(space, tab, newline, carriage return suffice for socket-table lines). -/
def isSpaceChar (c : Char) : Bool :=
  c = ' ' || c = '\t' || c = '\n' || c = '\r'

/-- Value of one hexadecimal digit, as accepted by `strconv.ParseUint`
with base 16 (`0-9`, `a-f`, `A-F`); `none` on any other character. -/
def hexDigitVal? (c : Char) : Option Nat :=
  let n := c.toNat
  if 48 ≤ n ∧ n ≤ 57 then some (n - 48)
  else if 97 ≤ n ∧ n ≤ 102 then some (n - 87)
  else if 65 ≤ n ∧ n ≤ 70 then some (n - 55)
  else none

/-- Digit value used when folding up a number (0 for non-digits; callers
validate digits first). -/
def digVal (c : Char) : Nat := (hexDigitVal? c).getD 0

/-- Is `c` a valid digit in the given base (10 or 16, as used by the Go
code)? Characters `a`-`f` are invalid in base 10 because their value is
≥ 10, matching `strconv.ParseUint`. -/
def validDigit (base : Nat) (c : Char) : Bool :=
  match hexDigitVal? c with
  | some v => v < base
  | none => false

/-- Most-significant-digit-first accumulation, as `strconv.ParseUint`
computes it. -/
def natOfDigits (base : Nat) (s : Str) : Nat :=
  s.foldl (fun a c => a * base + digVal c) 0

/-- Positional value of a hex string (defined independently of the
accumulator fold, most significant digit first). -/
def hexValue : Str → Nat
  | [] => 0
  | c :: cs => digVal c * 16 ^ cs.length + hexValue cs

/-- Error classes of `strconv.ParseUint`. -/
inductive NumErr
  | invalidDigits
  | valueOutOfRange
deriving DecidableEq, Repr

/-- `strconv.ParseUint(s, base, bits)`: empty strings and invalid digits
fail with a `ErrSyntax`-class error, values `≥ 2 ^ bits` with
`ErrRange`. -/
def parseUintGo (s : Str) (base : Nat) (bits : Nat) : Except NumErr Nat :=
  if s.isEmpty then .error .invalidDigits
  else if s.all (validDigit base) then
    let v := natOfDigits base s
    if v < 2 ^ bits then .ok v else .error .valueOutOfRange
  else .error .invalidDigits

/-- `binary.LittleEndian.PutUint32`: the four bytes of `v`, least
significant first. -/
def leBytes4 (v : Nat) : List Nat :=
  [v % 256, v / 2 ^ 8 % 256, v / 2 ^ 16 % 256, v / 2 ^ 24 % 256]

/-- Errors produced by `parseAddr` (and the surrounding line decoders).
`sliceBounds` marks a Go slice-bounds panic (reachable in `parseIPv6`
only for input lengths `parseAddr` never passes). -/
inductive AddrErr
  | notEnoughFields (s : Str)
  | badFormat (s : Str)
  | num (e : NumErr)
  | sliceBounds
deriving DecidableEq, Repr

/-- `parseIPv4`: an 8-hex-digit string read as one 32-bit value, emitted
as its 4 little-endian bytes. -/
def parseIPv4 (s : Str) : Except NumErr (List Nat) :=
  (parseUintGo s 16 32).map leBytes4

/-- The group loop of `parseIPv6`: consume 8 hex digits at a time, each
group becoming 4 little-endian bytes.  A leftover of 1-7 characters
makes the Go code take `s[0:8]` out of range (a panic, `sliceBounds`). -/
def parseIPv6Groups : Str → Except AddrErr (List (List Nat))
  | [] => .ok []
  | c1 :: c2 :: c3 :: c4 :: c5 :: c6 :: c7 :: c8 :: rest =>
    match parseUintGo [c1, c2, c3, c4, c5, c6, c7, c8] 16 32 with
    | .error e => .error (.num e)
    | .ok u =>
      match parseIPv6Groups rest with
      | .error e => .error e
      | .ok gs => .ok (leBytes4 u :: gs)
  | _ => .error .sliceBounds

/-- `parseIPv6`: the groups written in order into a preallocated
16-byte address (unwritten bytes stay zero; writing more than four
groups would run past the array — a panic). -/
def parseIPv6 (s : Str) : Except AddrErr (List Nat) :=
  match parseIPv6Groups s with
  | .error e => .error e
  | .ok gs =>
    if gs.length > 4 then .error .sliceBounds
    else .ok (gs.flatten ++ List.replicate (16 - 4 * gs.length) 0)

/-- `strings.Split(s, sep)` for a single-character separator: never
returns an empty list. -/
def splitOnChar (sep : Char) : Str → List Str
  | [] => [[]]
  | c :: cs =>
    if c = sep then [] :: splitOnChar sep cs
    else
      match splitOnChar sep cs with
      | [] => [[c]]
      | f :: rest => (c :: f) :: rest

/-- An ip:port pair (`SockEndpoint` / `SockAddr` in the two variants);
the IP is a list of 4 or 16 byte values. -/
structure SockEndpoint where
  ip : List Nat
  port : Nat
deriving DecidableEq, Repr

/-- `parseAddr`: split on `:`, dispatch on the length of the address
field (8 → IPv4, 32 → IPv6, other → bad-format error), then parse the
port as base-16 16-bit.  Identical in both repository variants. -/
def parseAddr (s : Str) : Except AddrErr SockEndpoint :=
  let fields := splitOnChar ':' s
  if fields.length < 2 then .error (.notEnoughFields s)
  else
    let f0 := fields.getD 0 []
    let f1 := fields.getD 1 []
    let ipRes : Except AddrErr (List Nat) :=
      if f0.length = 8 then
        match parseIPv4 f0 with
        | .error e => .error (.num e)
        | .ok ip => .ok ip
      else if f0.length = 32 then parseIPv6 f0
      else .error (.badFormat f0)
    match ipRes with
    | .error e => .error e
    | .ok ip =>
      match parseUintGo f1 16 16 with
      | .error e => .error (.num e)
      | .ok v => .ok { ip := ip, port := v }

/-! ## The `fmt.Sscanf`-based line decoder (`netstat_linux.go`) -/

/-- A process owning a socket (`Process` / `common.Process`). -/
structure Process where
  pid : Int
  name : Str
deriving DecidableEq, Repr

/-- One row of a socket table as decoded by `netstat_linux.go`
(`SockTabEntry`); the slot index scanned by `%d` is discarded. -/
structure SockTabEntry where
  transport : Str
  localEndpoint : SockEndpoint
  remoteEndpoint : SockEndpoint
  state : Nat
  txQueue : Nat
  rxQueue : Nat
  tr : Nat
  timerWhen : Nat
  retrnsmt : Nat
  uid : Nat
  timeout : Nat
  inode : Nat
  ref : Nat
  pointer : Nat
  process : Option Process := none
  netNS : Str := []
deriving DecidableEq, Repr

/-- Scanner state monad used to model `fmt.Sscanf`: remaining input,
failure on a scan error. -/
abbrev ScanM (α : Type) := StateT Str Option α

/-- Match one exact character of input (a non-space format literal). -/
def scanCh (c : Char) : ScanM Unit := fun s =>
  match s with
  | x :: xs => if x = c then some ((), xs) else none
  | [] => none

/-- `%s`: skip leading spaces, then read a non-empty run of
non-whitespace characters. -/
def scanTok : ScanM Str := fun s =>
  let s1 := s.dropWhile isSpaceChar
  let t := s1.takeWhile (fun c => !isSpaceChar c)
  if t.isEmpty then none else some (t, s1.drop t.length)

/-- `%d` into an unsigned field: skip spaces, read decimal digits,
fail on overflow of the target width. -/
def scanUDec (bits : Nat) : ScanM Nat := fun s =>
  let s1 := s.dropWhile isSpaceChar
  let ds := s1.takeWhile (validDigit 10)
  if ds.isEmpty then none
  else
    let v := natOfDigits 10 ds
    if v < 2 ^ bits then some (v, s1.drop ds.length) else none

/-- `%X`: skip spaces, read hexadecimal digits, fail on overflow of the
target width. -/
def scanUHex (bits : Nat) : ScanM Nat := fun s =>
  let s1 := s.dropWhile isSpaceChar
  let ds := s1.takeWhile (validDigit 16)
  if ds.isEmpty then none
  else
    let v := natOfDigits 16 ds
    if v < 2 ^ bits then some (v, s1.drop ds.length) else none

/-- `%d` into the signed `int64` slot index: optional sign, decimal
digits, 64-bit signed range. -/
def scanSInt : ScanM Int := fun s =>
  let s1 := s.dropWhile isSpaceChar
  match s1 with
  | '-' :: rest =>
    let ds := rest.takeWhile (validDigit 10)
    if ds.isEmpty then none
    else
      let v := natOfDigits 10 ds
      if v ≤ 2 ^ 63 then some (-(v : Int), rest.drop ds.length) else none
  | '+' :: rest =>
    let ds := rest.takeWhile (validDigit 10)
    if ds.isEmpty then none
    else
      let v := natOfDigits 10 ds
      if v < 2 ^ 63 then some ((v : Int), rest.drop ds.length) else none
  | _ =>
    let ds := s1.takeWhile (validDigit 10)
    if ds.isEmpty then none
    else
      let v := natOfDigits 10 ds
      if v < 2 ^ 63 then some ((v : Int), s1.drop ds.length) else none

/-- The raw values scanned from one data line by
`fmt.Sscanf(line, "%d: %s %s %X %X:%X %d:%X %X %d %d %d %d %X", ...)`. -/
structure RawLine where
  slot : Int
  localStr : Str
  remoteStr : Str
  state : Nat
  txQueue : Nat
  rxQueue : Nat
  tr : Nat
  timerWhen : Nat
  retrnsmt : Nat
  uid : Nat
  timeout : Nat
  inode : Nat
  ref : Nat
  pointer : Nat
deriving DecidableEq, Repr

/-- Verbs 1-3 of the format `"%d: %s %s %X %X:%X %d:%X %X %d %d %d %d %X"`:
slot index, local endpoint string, remote endpoint string.  The `:`
literal must match immediately after the slot digits. -/
def scanHead : ScanM (Int × Str × Str) := do
  let slot ← scanSInt
  scanCh ':'
  let l ← scanTok
  let r ← scanTok
  pure (slot, l, r)

/-- Verbs 4-8 of the format: `%X %X:%X %d:%X`
(state, tx queue, rx queue, timer active, timer when). -/
def scanQueues : ScanM (Nat × Nat × Nat × Nat × Nat) := do
  let st ← scanUHex 8
  let tx ← scanUHex 64
  scanCh ':'
  let rx ← scanUHex 64
  let tr ← scanUDec 8
  scanCh ':'
  let wh ← scanUHex 64
  pure (st, tx, rx, tr, wh)

/-- Verbs 9-14 of the format: `%X %d %d %d %d %X`
(retransmits, uid, timeout, inode, ref count, memory address). -/
def scanCounters : ScanM (Nat × Nat × Nat × Nat × Nat × Nat) := do
  let re ← scanUHex 64
  let uid ← scanUDec 32
  let tout ← scanUDec 64
  let ino ← scanUDec 64
  let rf ← scanUDec 64
  let ptr ← scanUHex 64
  pure (re, uid, tout, ino, rf, ptr)

/-- The whole `fmt.Sscanf(line, "%d: %s %s %X %X:%X %d:%X %X %d %d %d %d %X",
...)` call of `parseSockTab`.  Spaces in the format match any run of
spaces (each verb also skips leading spaces); the `:` literals must
match immediately.  Field widths follow the Go struct: `State`/`Tr` are
8-bit, `UID` 32-bit, the rest 64-bit.  Trailing input after the last
verb is ignored, as `Sscanf` ignores it. -/
def sscanfSockLine (line : Str) : Option RawLine :=
  (((do
    let (slot, l, r) ← scanHead
    let (st, tx, rx, tr, wh) ← scanQueues
    let (re, uid, tout, ino, rf, ptr) ← scanCounters
    pure (RawLine.mk slot l r st tx rx tr wh re uid tout ino rf ptr)) :
      ScanM RawLine).run line).map Prod.fst

/-- Errors of the two line decoders and of file opening. -/
inductive ParseErr
  | scanFailed
  | addr (e : AddrErr)
  | fieldsCount (n : Nat)
  | stateNum (e : NumErr)
  | uidNum (e : NumErr)
  | fileOpen
deriving DecidableEq, Repr

/-- The body of `parseSockTab`'s loop for one data line: `fmt.Sscanf`,
then `parseAddr` on the local and remote endpoint strings. -/
def decodeLineGo (transport : Str) (line : Str) : Except ParseErr SockTabEntry :=
  match sscanfSockLine line with
  | none => .error .scanFailed
  | some raw =>
    match parseAddr raw.localStr with
    | .error e => .error (.addr e)
    | .ok le =>
      match parseAddr raw.remoteStr with
      | .error e => .error (.addr e)
      | .ok re =>
        .ok { transport := transport, localEndpoint := le, remoteEndpoint := re,
              state := raw.state, txQueue := raw.txQueue, rxQueue := raw.rxQueue,
              tr := raw.tr, timerWhen := raw.timerWhen, retrnsmt := raw.retrnsmt,
              uid := raw.uid, timeout := raw.timeout, inode := raw.inode,
              ref := raw.ref, pointer := raw.pointer }

/-- Socket-entry filter (`AcceptFn`). -/
abbrev AcceptFn := SockTabEntry → Bool

/-- The data-line loop of `parseSockTab`: any line that fails to decode
aborts with that error; surviving entries keep table order. -/
def parseSockTabLines (accept : AcceptFn) (transport : Str) :
    List Str → Except ParseErr (List SockTabEntry)
  | [] => .ok []
  | line :: rest =>
    match decodeLineGo transport line with
    | .error e => .error e
    | .ok entry =>
      match parseSockTabLines accept transport rest with
      | .error e => .error e
      | .ok tab => .ok (if accept entry then entry :: tab else tab)

/-- `parseSockTab` (`netstat_linux.go`): the first `scanner.Scan()`
unconditionally discards the header line, then every further line is
decoded. -/
def parseSockTab (lines : List Str) (accept : AcceptFn) (transport : Str) :
    Except ParseErr (List SockTabEntry) :=
  parseSockTabLines accept transport (lines.drop 1)

/-! ## The token-split line decoder (sequential variant, `parseSocktab`) -/

/-- One row of a socket table as decoded by the sequential variant's
`parseSocktab` (its `SockTabEntry`: fewer fields, inode kept as a
string). -/
structure SockTabEntry5 where
  localAddr : SockEndpoint
  remoteAddr : SockEndpoint
  state : Nat
  uid : Nat
  ino : Str
  proto : Str
  process : Option Process := none
deriving DecidableEq, Repr

/-- Filter over sequential-variant entries. -/
abbrev AcceptFn5 := SockTabEntry5 → Bool

/-- Generic split at every character satisfying `p` (runs of separators
produce empty fields, filtered away by `splitFields`). -/
def splitWhen (p : Char → Bool) : Str → List Str
  | [] => [[]]
  | c :: cs =>
    if p c then [] :: splitWhen p cs
    else
      match splitWhen p cs with
      | [] => [[c]]
      | f :: rest => (c :: f) :: rest

/-- `strings.Fields`: the maximal runs of non-whitespace characters. -/
def splitFields (s : Str) : List Str :=
  (splitWhen isSpaceChar s).filter (fun f => !f.isEmpty)

/-- Decoding of one (non-comment) data line in the sequential variant:
split into fields, require at least 12, `parseAddr` on fields 1 and 2,
state from field 3 (base-16 8-bit), uid from field 7 (base-10 32-bit),
inode kept verbatim from field 9. -/
def decodeLine5 (proto : Str) (line : Str) : Except ParseErr SockTabEntry5 :=
  let fields := splitFields line
  if fields.length < 12 then .error (.fieldsCount fields.length)
  else
    match parseAddr (fields.getD 1 []) with
    | .error e => .error (.addr e)
    | .ok la =>
      match parseAddr (fields.getD 2 []) with
      | .error e => .error (.addr e)
      | .ok ra =>
        match parseUintGo (fields.getD 3 []) 16 8 with
        | .error e => .error (.stateNum e)
        | .ok st =>
          match parseUintGo (fields.getD 7 []) 10 32 with
          | .error e => .error (.uidNum e)
          | .ok u =>
            .ok { localAddr := la, remoteAddr := ra, state := st, uid := u,
                  ino := fields.getD 9 [], proto := proto }

/-- The data-line loop of the sequential `parseSocktab`: any line
containing a `#` anywhere (`strings.Index(line, "#") >= 0`) is skipped
as a comment before decoding; otherwise a decode failure aborts. -/
def parseSocktab5Lines (accept : AcceptFn5) (proto : Str) :
    List Str → Except ParseErr (List SockTabEntry5)
  | [] => .ok []
  | line :: rest =>
    if '#' ∈ line then parseSocktab5Lines accept proto rest
    else
      match decodeLine5 proto line with
      | .error e => .error e
      | .ok entry =>
        match parseSocktab5Lines accept proto rest with
        | .error e => .error e
        | .ok tab => .ok (if accept entry then entry :: tab else tab)

/-- `parseSocktab` (sequential variant): discard the title line, then
run the data-line loop. -/
def parseSocktab5 (lines : List Str) (accept : AcceptFn5) (proto : Str) :
    Except ParseErr (List SockTabEntry5) :=
  parseSocktab5Lines accept proto (lines.drop 1)

/-! ## Socket-state names (`skStates`, `SkState.String`) -/

/-- The `skStates` table of `netstat_linux.go`: 12 entries, index 0 the
`UNKNOWN` slot, indices 1-11 the named TCP states. -/
def skStatesList : List String :=
  ["UNKNOWN", "ESTABLISHED", "SYN_SENT", "SYN_RECV", "FIN_WAIT1",
   "FIN_WAIT2", "TIME_WAIT", "CLOSE", "CLOSE_WAIT", "LAST_ACK",
   "LISTEN", "CLOSING"]

/-- `SkState.String`: `skStates[s]`.  For `s` beyond the table an index
out of range is a Go runtime panic, modelled as `none`. -/
def skStateString (s : Nat) : Option String :=
  skStatesList.get? s

/-! ## Process-name extraction (`getProcName`, two variants) -/

/-- `bytes.Index` for one character: index of its first occurrence. -/
def idxOfChar? (c : Char) : Str → Option Nat
  | [] => none
  | x :: xs => if x = c then some 0 else (idxOfChar? c xs).map (· + 1)

/-- `bytes.LastIndex` for one character: index of its last occurrence. -/
def lastIdxOfChar? (c : Char) (s : Str) : Option Nat :=
  (idxOfChar? c s.reverse).map (fun i => s.length - 1 - i)

/-- `getProcName` (`netstat_linux.go` and the sequential variant):
substring strictly between the first `(` and the last `)`; empty when
either is missing or they are not in that order. -/
def getProcName (s : Str) : Str :=
  match idxOfChar? '(' s with
  | none => []
  | some i =>
    match lastIdxOfChar? ')' s with
    | none => []
    | some j => if j < 1 ∨ i + 1 ≥ j then [] else (s.take j).drop (i + 1)

/-- `getProcName` of the `processes` package (part of the same
repository): first `(`, then the first `)` *after* it
(`bytes.IndexByte(s[start:], ')')`), substring between the two. -/
def getProcNameProcesses (s : Str) : Str :=
  match idxOfChar? '(' s with
  | none => []
  | some start =>
    match idxOfChar? ')' (s.drop start) with
    | none => []
    | some e => if e < 1 then [] else (s.take (start + e)).drop (start + 1)

/-! ## The per-`base` process cache (`processCache`, `procFd.getProcess`) -/

/-- The `processCache` map, keyed by the `/proc/<pid>` base path.  In
`netstat_linux.go` it is a package-level `sync.Map`, so it survives
from one `Netstat` call to the next; we thread it explicitly. -/
abbrev Cache := List (Str × Process)

/-- Association-list lookup (first binding wins). -/
def cacheGet? : Cache → Str → Option Process
  | [], _ => none
  | (k, v) :: rest, key => if k = key then some v else cacheGet? rest key

/-- `bytes.SplitN(s, " ", n)`: at most `n` fields, the last keeps the
remaining separators. -/
def splitNChar (sep : Char) : Nat → Str → List Str
  | 0, _ => []
  | 1, s => [s]
  | n + 2, s =>
    match idxOfChar? sep s with
    | none => [s]
    | some i => s.take i :: splitNChar sep (n + 1) (s.drop (i + 1))

/-- `procFd.getProcess`: cache hit returns the cached `Process`;
otherwise read the stat file (up to 1024 bytes; `none` models an
open/read error, returned as a nil process), split into at most 3
space-separated fields, extract the name from field 1, store and
return. -/
def getProcess (cache : Cache) (base : Str) (pid : Int) (statContent : Option Str) :
    Option Process × Cache :=
  match cacheGet? cache base with
  | some p => (some p, cache)
  | none =>
    match statContent with
    | none => (none, cache)
    | some buf0 =>
      let buf := buf0.take 1024
      let z := splitNChar ' ' 3 buf
      let name := getProcName (z.getD 1 [])
      let p : Process := { pid := pid, name := name }
      (some p, (base, p) :: cache)

/-- Per-pid cache of the `processes` package (`GetProcessFDs` creates a
fresh `sync.Map` on every call, so this one is invocation-scoped). -/
abbrev CacheP0 := List (Int × Process)

/-- Association-list lookup for the per-pid cache. -/
def cacheP0Get? : CacheP0 → Int → Option Process
  | [], _ => none
  | (k, v) :: rest, key => if k = key then some v else cacheP0Get? rest key

/-- `getProcess` of the `processes` package: cache hit, else read the
whole stat file; a read failure returns a `Process` with only the pid
set (and an error the caller replaces it with `{Pid: pid}` anyway). -/
def getProcessP0 (cache : CacheP0) (pid : Int) (statContent : Option Str) :
    Process × CacheP0 :=
  match cacheP0Get? cache pid with
  | some p => (p, cache)
  | none =>
    match statContent with
    | none => ({ pid := pid, name := [] }, cache)
    | some stat =>
      let z := splitNChar ' ' 3 stat
      let name := getProcNameProcesses (z.getD 1 [])
      let p : Process := { pid := pid, name := name }
      (p, (pid, p) :: cache)

/-! ## Process/FD enrichment (`extractProcInfo`, both variants)

A `/proc` directory is modelled by the data the code reads from it:
whether the directory listing succeeded, and for each entry its name,
directory flag, `fd` listing (readlink result per descriptor, `none`
for an unreadable link) and `stat` content. -/

/-- The decimal digits of a natural number (`strconv.FormatUint(v, 10)`),
via a structural fuel so it evaluates by `decide`. -/
def natToDecAux : Nat → Nat → Str → Str
  | 0, _, acc => acc
  | fuel + 1, n, acc =>
    let d := Char.ofNat (48 + n % 10)
    if n < 10 then d :: acc else natToDecAux fuel (n / 10) (d :: acc)

/-- Decimal rendering of a `Nat`. -/
def natToDec (n : Nat) : Str := natToDecAux (n + 1) n []

/-- Decimal rendering of an `Int` (`strconv.Itoa`). -/
def intToDec (i : Int) : Str :=
  if i < 0 then '-' :: natToDec i.natAbs else natToDec i.natAbs

/-- `strconv.Atoi`: optional sign, decimal digits, 64-bit signed range. -/
def atoi? (s : Str) : Option Int :=
  match s with
  | '-' :: rest =>
    if rest.isEmpty ∨ ¬ rest.all (validDigit 10) then none
    else
      let v := natOfDigits 10 rest
      if v ≤ 2 ^ 63 then some (-(v : Int)) else none
  | '+' :: rest =>
    if rest.isEmpty ∨ ¬ rest.all (validDigit 10) then none
    else
      let v := natOfDigits 10 rest
      if v < 2 ^ 63 then some ((v : Int)) else none
  | _ =>
    if s.isEmpty ∨ ¬ s.all (validDigit 10) then none
    else
      let v := natOfDigits 10 s
      if v < 2 ^ 63 then some ((v : Int)) else none

/-- The `socket:[` link prefix. -/
def sockPfx : Str := ("socket:[").toList

/-- The `/proc` root. -/
def procRoot : Str := ("/proc").toList

/-- One entry of the `/proc` directory, with everything the scanners
read from it. -/
structure ProcDirEntry where
  name : Str
  isDir : Bool
  fdReadable : Bool
  fdLinks : List (Option Str)
  statContent : Option Str
deriving DecidableEq, Repr

/-- The `/proc` directory itself (`readable = false` models an
`os.ReadDir` failure, which both variants swallow). -/
structure ProcModel where
  readable : Bool
  entries : List ProcDirEntry
deriving DecidableEq, Repr

/-- Inner loop of `procFd.iterFdDir` (concurrent variant): match one
socket link name against every entry's inode; on the first match fetch
the process through the cache (`p.p` memoised per proc, retried while
still `nil`), and assign it — even when `nil` — to the entry. -/
def matchEntriesGo (base : Str) (pid : Int) (stat : Option Str) (lname : Str) :
    List SockTabEntry → Option Process → Cache →
    (List SockTabEntry × Option Process × Cache)
  | [], pp, cache => ([], pp, cache)
  | e :: rest, pp, cache =>
    let ss := sockPfx ++ natToDec e.inode ++ [']']
    if ss = lname then
      let pc := if pp.isNone then getProcess cache base pid stat else (pp, cache)
      let r := matchEntriesGo base pid stat lname rest pc.1 pc.2
      ({ e with process := pc.1 } :: r.1, r.2)
    else
      let r := matchEntriesGo base pid stat lname rest pp cache
      (e :: r.1, r.2)

/-- Outer loop of `procFd.iterFdDir` (concurrent variant): every
readable `fd` link whose target starts with `socket:[` is matched
against the table. -/
def iterFdLinksGo (base : Str) (pid : Int) (stat : Option Str) :
    List (Option Str) → List SockTabEntry → Option Process → Cache →
    (List SockTabEntry × Cache)
  | [], tab, _, cache => (tab, cache)
  | link :: rest, tab, pp, cache =>
    match link with
    | none => iterFdLinksGo base pid stat rest tab pp cache
    | some lname =>
      if sockPfx.isPrefixOf lname then
        let r := matchEntriesGo base pid stat lname tab pp cache
        iterFdLinksGo base pid stat rest r.1 r.2.1 r.2.2
      else iterFdLinksGo base pid stat rest tab pp cache

/-- `procFd.iterFdDir` (concurrent variant): an unreadable `fd`
directory is skipped silently. -/
def iterFdDirGo (d : ProcDirEntry) (pid : Int) (tab : List SockTabEntry)
    (cache : Cache) : List SockTabEntry × Cache :=
  if d.fdReadable then
    iterFdLinksGo (procRoot ++ '/' :: intToDec pid) pid d.statContent d.fdLinks tab none cache
  else (tab, cache)

/-- `extractProcInfo` (concurrent variant), linearised in directory
order: non-directories and non-numeric names are skipped; each numeric
pid's `fd` directory is scanned.  (The Go code fans the pids out over
`runtime.NumCPU()` workers; distinct pids touch distinct cache keys and
the per-entry assignments are keyed by inode, so the directory-order
linearisation is one of its schedules.) -/
def extractProcInfoGoLoop (cache : Cache) (tab : List SockTabEntry) :
    List ProcDirEntry → List SockTabEntry × Cache
  | [] => (tab, cache)
  | d :: rest =>
    if d.isDir then
      match atoi? d.name with
      | some pid =>
        let r := iterFdDirGo d pid tab cache
        extractProcInfoGoLoop r.2 r.1 rest
      | none => extractProcInfoGoLoop cache tab rest
    else extractProcInfoGoLoop cache tab rest

/-- `extractProcInfo` (concurrent variant): an unreadable `/proc`
listing is a silent no-op. -/
def extractProcInfoGo (pf : ProcModel) (cache : Cache) (tab : List SockTabEntry) :
    List SockTabEntry × Cache :=
  if pf.readable then extractProcInfoGoLoop cache tab pf.entries else (tab, cache)

/-- Inner loop of `iterFdDir` (sequential variant): on the first match
the stat file is read inline (128-byte buffer); an open/read failure
makes `iterFdDir` return at once (the `Bool` marks that abort), leaving
the remaining entries and links untouched. -/
def matchEntries5 (pid : Int) (stat : Option Str) (lname : Str) :
    List SockTabEntry5 → Option Process →
    (List SockTabEntry5 × Option Process × Bool)
  | [], pp => ([], pp, false)
  | e :: rest, pp =>
    let ss := sockPfx ++ e.ino ++ [']']
    if ss = lname then
      match pp with
      | some p =>
        let r := matchEntries5 pid stat lname rest (some p)
        ({ e with process := some p } :: r.1, r.2)
      | none =>
        match stat with
        | none => (e :: rest, none, true)
        | some buf =>
          let z := splitNChar ' ' 3 (buf.take 128)
          let p : Process := { pid := pid, name := getProcName (z.getD 1 []) }
          let r := matchEntries5 pid stat lname rest (some p)
          ({ e with process := some p } :: r.1, r.2)
    else
      let r := matchEntries5 pid stat lname rest pp
      (e :: r.1, r.2)

/-- Outer loop of `iterFdDir` (sequential variant), stopping on a stat
read failure. -/
def iterFdLinks5 (pid : Int) (stat : Option Str) :
    List (Option Str) → List SockTabEntry5 → Option Process → List SockTabEntry5
  | [], tab, _ => tab
  | link :: rest, tab, pp =>
    match link with
    | none => iterFdLinks5 pid stat rest tab pp
    | some lname =>
      if sockPfx.isPrefixOf lname then
        let r := matchEntries5 pid stat lname tab pp
        if r.2.2 then r.1 else iterFdLinks5 pid stat rest r.1 r.2.1
      else iterFdLinks5 pid stat rest tab pp

/-- `iterFdDir` (sequential variant). -/
def iterFdDir5 (d : ProcDirEntry) (pid : Int) (tab : List SockTabEntry5) :
    List SockTabEntry5 :=
  if d.fdReadable then iterFdLinks5 pid d.statContent d.fdLinks tab none else tab

/-- `extractProcInfo` (sequential variant): plain loop over the
directory entries. -/
def extractProcInfo5Loop (tab : List SockTabEntry5) :
    List ProcDirEntry → List SockTabEntry5
  | [] => tab
  | d :: rest =>
    if d.isDir then
      match atoi? d.name with
      | some pid => extractProcInfo5Loop (iterFdDir5 d pid tab) rest
      | none => extractProcInfo5Loop tab rest
    else extractProcInfo5Loop tab rest

/-- `extractProcInfo` (sequential variant). -/
def extractProcInfo5 (pf : ProcModel) (tab : List SockTabEntry5) : List SockTabEntry5 :=
  if pf.readable then extractProcInfo5Loop tab pf.entries else tab

/-! ## The concurrent `Netstat` orchestrator (`netstat_linux.go`) -/

/-- Feature flags (`EnableFeatures`); the concurrent `Netstat` modelled
here reads the eight protocol flags and `PID`. -/
structure EnableFeatures where
  TCP : Bool := false
  TCP6 : Bool := false
  UDP : Bool := false
  UDP6 : Bool := false
  UDPLite : Bool := false
  UDPLite6 : Bool := false
  Raw : Bool := false
  Raw6 : Bool := false
  PID : Bool := false
deriving DecidableEq, Repr

/-- Host socket-table paths. -/
def pathTCPTab : Str := ("/proc/net/tcp").toList

/-- Host tcp6 table path. -/
def pathTCP6Tab : Str := ("/proc/net/tcp6").toList

/-- Host udp table path. -/
def pathUDPTab : Str := ("/proc/net/udp").toList

/-- Host udp6 table path. -/
def pathUDP6Tab : Str := ("/proc/net/udp6").toList

/-- Host udplite table path. -/
def pathUDPLiteTab : Str := ("/proc/net/udplite").toList

/-- Host udplite6 table path. -/
def pathUDPLite6Tab : Str := ("/proc/net/udplite6").toList

/-- Host raw table path. -/
def pathRawTab : Str := ("/proc/net/raw").toList

/-- Host raw6 table path. -/
def pathRaw6Tab : Str := ("/proc/net/raw6").toList

/-- `procFiles`: the table files selected by the feature flags, in the
fixed order of the source. -/
def procFiles (f : EnableFeatures) : List Str :=
  (if f.TCP then [pathTCPTab] else []) ++
  (if f.TCP6 then [pathTCP6Tab] else []) ++
  (if f.UDP then [pathUDPTab] else []) ++
  (if f.UDP6 then [pathUDP6Tab] else []) ++
  (if f.UDPLite then [pathUDPLiteTab] else []) ++
  (if f.UDPLite6 then [pathUDPLite6Tab] else []) ++
  (if f.Raw then [pathRawTab] else []) ++
  (if f.Raw6 then [pathRaw6Tab] else [])

/-- The transport tag: the file name after the last `/`
(`file[strings.LastIndex(file, "/")+1:]`). -/
def transportOf (file : Str) : Str :=
  match lastIdxOfChar? '/' file with
  | none => file
  | some i => file.drop (i + 1)

/-- A file system: `none` models an `os.Open` failure, otherwise the
file's lines (as `bufio.Scanner` would deliver them). -/
abbrev FileSys := Str → Option (List Str)

/-- `openFileStream`: open the file (an open failure is an error to the
caller) and parse it. -/
def openFileStream (fs : FileSys) (file : Str) (fn : AcceptFn) :
    Except ParseErr (List SockTabEntry) :=
  match fs file with
  | none => .error .fileOpen
  | some lines => parseSockTab lines fn (transportOf file)

/-- What worker goroutine `i` sends on its channel: an empty slice when
it saw the cancelled context at its entry, an empty slice when
`openFileStream` failed for any reason, otherwise the parsed entries. -/
def workerOutput (fs : FileSys) (fn : AcceptFn) (cancelled : Bool) (file : Str) :
    List SockTabEntry :=
  if cancelled then []
  else
    match openFileStream fs file fn with
    | .error _ => []
    | .ok tabs => tabs

/-- The per-file worker outputs, one per file, in file order
(`cancelWorker i` says whether worker `i` saw `ctx.Done()` first). -/
def workerOutputs (fs : FileSys) (fn : AcceptFn) (cancelWorker : Nat → Bool) :
    Nat → List Str → List (List SockTabEntry)
  | _, [] => []
  | i, file :: rest =>
    workerOutput fs fn (cancelWorker i) file :: workerOutputs fs fn cancelWorker (i + 1) rest

/-- The collection loop: receive from each channel in order; if the
`select` takes the `ctx.Done()` branch at channel `k` (the schedule
parameter), return what has been merged so far and report
cancellation. -/
def mergeChannels : Option Nat → List (List SockTabEntry) →
    List SockTabEntry × Bool
  | _, [] => ([], false)
  | some 0, _ :: _ => ([], true)
  | some (k + 1), out :: rest =>
    let r := mergeChannels (some k) rest
    (out ++ r.1, r.2)
  | none, out :: rest =>
    let r := mergeChannels none rest
    (out ++ r.1, r.2)

/-- The only error the concurrent `Netstat` ever returns: `ctx.Err()`. -/
inductive NetErr
  | ctxCanceled
deriving DecidableEq, Repr

/-- Result of the concurrent `Netstat`, with the package-level
`processCache` threaded explicitly (it is global in the source and
never cleared between calls). -/
structure GoResult where
  tabs : List SockTabEntry
  err : Option NetErr
  cache : Cache
deriving DecidableEq, Repr

/-- `Netstat` (`netstat_linux.go`): one worker per selected file, a
merge loop over the channels in file order, then — only when no
cancellation was hit — optional process enrichment.  `cancelWorker`
and `cancelMergeAt` are the schedule of the cancellation signal:
which workers saw `ctx.Done()` at their entry, and at which merge
index (if any) the `select` took the `ctx.Done()` branch. -/
def NetstatGo (fs : FileSys) (pf : ProcModel) (cache0 : Cache)
    (feature : EnableFeatures) (fn : AcceptFn)
    (cancelWorker : Nat → Bool) (cancelMergeAt : Option Nat) : GoResult :=
  let files := procFiles feature
  let outs := workerOutputs fs fn cancelWorker 0 files
  let merged := mergeChannels cancelMergeAt outs
  if merged.2 then { tabs := merged.1, err := some .ctxCanceled, cache := cache0 }
  else if feature.PID && !merged.1.isEmpty then
    let r := extractProcInfoGo pf cache0 merged.1
    { tabs := r.1, err := none, cache := r.2 }
  else { tabs := merged.1, err := none, cache := cache0 }

/-! ## The sequential `Netstat` variant -/

/-- The fixed file list of the sequential `Netstat`. -/
def files5 : List Str := [pathTCPTab, pathTCP6Tab, pathUDPTab, pathUDP6Tab]

/-- The `/proc/net/` prefix cut off to obtain the protocol tag
(`strings.CutPrefix`). -/
def procNetPfx : Str := ("/proc/net/").toList

/-- Protocol tag of a table path. -/
def protoOf5 (file : Str) : Str :=
  if procNetPfx.isPrefixOf file then file.drop procNetPfx.length else file

/-- Open and parse one file in the sequential variant: an `os.Open`
failure is an error here (it is *returned*, not skipped). -/
def openParse5 (fs : FileSys) (fn : AcceptFn5) (file : Str) :
    Except ParseErr (List SockTabEntry5) :=
  match fs file with
  | none => .error .fileOpen
  | some lines => parseSocktab5 lines fn (protoOf5 file)

/-- The file loop of the sequential `Netstat`: first failure aborts the
whole call. -/
def netstat5Loop (fs : FileSys) (fn : AcceptFn5) :
    List Str → Except ParseErr (List SockTabEntry5)
  | [] => .ok []
  | file :: rest =>
    match openParse5 fs fn file with
    | .error e => .error e
    | .ok tabs =>
      match netstat5Loop fs fn rest with
      | .error e => .error e
      | .ok more => .ok (tabs ++ more)

/-- `Netstat` (sequential variant): tcp, tcp6, udp, udp6 in order, each
open/parse failure fatal, then process enrichment when any entries
were collected. -/
def Netstat5 (fs : FileSys) (pf : ProcModel) (fn : AcceptFn5) :
    Except ParseErr (List SockTabEntry5) :=
  match netstat5Loop fs fn files5 with
  | .error e => .error e
  | .ok combined =>
    .ok (if combined.isEmpty then combined else extractProcInfo5 pf combined)

/-! ## The namespace resolver (`getPidofNetNsFromProcInodes`) -/

/-- One `/proc` entry as seen by the namespace scan: its name, whether
it is a directory, and the `readlink` result of its `ns/net` link. -/
structure NsProcEntry where
  name : Str
  isDir : Bool
  nsLink : Option Str
deriving DecidableEq, Repr

/-- Errors of `getPidofNetNsFromProcInodes`: the wrapped `os.ReadDir`
failure, and the `"no matching file descriptors found"` error. -/
inductive NsErr
  | readDirFailed
  | noMatch
deriving DecidableEq, Repr

/-- Map lookup (`inodeToFind[target]`). -/
def mapGet? : List (Str × Nat) → Str → Option Nat
  | [], _ => none
  | (k, v) :: rest, key => if k = key then some v else mapGet? rest key

/-- Map deletion (`delete(inodeToFind, target)`). -/
def mapDelete : List (Str × Nat) → Str → List (Str × Nat)
  | [], _ => []
  | (k, v) :: rest, key =>
    if k = key then mapDelete rest key else (k, v) :: mapDelete rest key

/-- Map insertion with overwrite (`inodeToFind[f] = i`). -/
def mapSet (m : List (Str × Nat)) (k : Str) (v : Nat) : List (Str × Nat) :=
  (k, v) :: mapDelete m k

/-- The `for i, f := range inode { inodeToFind[f] = i }` loop. -/
def buildInodeToFindAux (acc : List (Str × Nat)) : Nat → List Str → List (Str × Nat)
  | _, [] => acc
  | i, f :: rest => buildInodeToFindAux (mapSet acc f i) (i + 1) rest

/-- `inodeToFind`: each wanted inode string mapped to its index in the
input slice. -/
def buildInodeToFind (inodes : List Str) : List (Str × Nat) :=
  buildInodeToFindAux [] 0 inodes

/-- `strconv.ParseUint(name, 10, 32)` as used for pid directory names. -/
def parsePid32 (s : Str) : Option Nat :=
  match parseUintGo s 10 32 with
  | .ok v => some v
  | .error _ => none

/-- One process's step of `getPidofNetNsFromProcInodes`: the guard
chain of the goroutine body.  A directory entry with a numeric name
whose `ns/net` link target is a still-wanted inode — provided
`len(netNSNames) > 0` — claims that namespace's name; the result is
the claimed `(pid, name)` pair together with the target to delete from
`inodeToFind`, or `none` when any guard fails. -/
def nsStep (names : List Str) (toFind : List (Str × Nat)) (e : NsProcEntry) :
    Option ((Nat × Str) × Str) :=
  if e.isDir then
    match parsePid32 e.name with
    | some pid =>
      match e.nsLink with
      | some target =>
        match mapGet? toFind target with
        | some i =>
          if 0 < names.length then some ((pid, names.getD i []), target)
          else none
        | none => none
      | none => none
    | none => none
  else none

/-- The per-process scan of `getPidofNetNsFromProcInodes`, linearised
in directory order (the goroutines write `pidNetNS` under one mutex;
only which pid claims a shared target depends on the schedule, not the
emptiness the error check looks at): each claiming step inserts into
the map and deletes the claimed inode. -/
def nsFold (names : List Str) :
    List NsProcEntry → List (Nat × Str) → List (Str × Nat) → List (Nat × Str)
  | [], acc, _ => acc
  | e :: rest, acc, toFind =>
    match nsStep names toFind e with
    | some (pn, target) => nsFold names rest (pn :: acc) (mapDelete toFind target)
    | none => nsFold names rest acc toFind

/-- `getPidofNetNsFromProcInodes`: scan every process; fail with the
no-match error exactly when the resulting pid-to-name map stayed
empty. -/
def getPidofNetNsFromProcInodes (inodes names : List Str) (procReadable : Bool)
    (entries : List NsProcEntry) : Except NsErr (List (Nat × Str)) :=
  if procReadable then
    let m := nsFold names entries [] (buildInodeToFind inodes)
    if m.isEmpty then .error .noMatch else .ok m
  else .error .readDirFailed

/-- `GetNetNsPids`: the wrapper that swallows every resolver error into
an empty map (`inodesRes = none` models both inode-stat attempts
failing). -/
def GetNetNsPids (inodesRes : Option (List Str)) (names : List Str)
    (procReadable : Bool) (entries : List NsProcEntry) : List (Nat × Str) :=
  match inodesRes with
  | none => []
  | some inodes =>
    match getPidofNetNsFromProcInodes inodes names procReadable entries with
    | .error _ => []
    | .ok m => m

/-- Does a `/proc` entry match some wanted inode, stated against the
*input* inode list (rather than the shrinking `inodeToFind` map)? -/
def nsEntryMatches (inodes names : List Str) (e : NsProcEntry) : Bool :=
  e.isDir &&
  (parsePid32 e.name).isSome &&
  (match e.nsLink with
   | some t => decide (t ∈ inodes) && decide (0 < names.length)
   | none => false)

/-! ## Concrete inputs used in witnesses and counterexamples -/

/-- Did an `Except` computation succeed? -/
def exceptOk {ε α : Type} : Except ε α → Bool
  | .ok _ => true
  | .error _ => false

/-- Entries one file contributes when nothing is cancelled: the size of
its parse result, 0 when it cannot be opened or parsed. -/
def fileEntryCount (fs : FileSys) (fn : AcceptFn) (f : Str) : Nat :=
  match openFileStream fs f fn with
  | .ok t => t.length
  | .error _ => 0

/-- The total number of entries (matching the filter) available across
every selected file. -/
def totalMatching (fs : FileSys) (feature : EnableFeatures) (fn : AcceptFn) : Nat :=
  ((procFiles feature).map (fileEntryCount fs fn)).sum

/-- `NoopFilter`: accepts every entry. -/
def NoopFilter : AcceptFn := fun _ => true

/-- A filter rejecting every entry. -/
def rejectAllFilter : AcceptFn := fun _ => false

/-- `NoopFilter` for the sequential variant's entries. -/
def NoopFilter5 : AcceptFn5 := fun _ => true

/-- A rejecting filter for the sequential variant's entries. -/
def rejectAllFilter5 : AcceptFn5 := fun _ => false

/-- A header line (its content is irrelevant: it is always discarded). -/
def hdrLine : Str :=
  ("  sl  local_address rem_address   st tx_queue rx_queue tr tm->when retrnsmt   uid  timeout inode").toList

/-- A data line from the repository's own parser test. -/
def goodLine : Str :=
  ("   0: 0100007F:13AD 00000000:0000 0A 00000000:00000000 00:00000000 00000000     0        0 107869 1 ffff88022c1e7000 100 0 0 10 0").toList

/-- A line no decoder accepts. -/
def badLine : Str := ("xyz").toList

/-- The good line with connection-state field `0C` (= 12, outside the
named states). -/
def lineState0C : Str :=
  ("   0: 0100007F:13AD 00000000:0000 0C 00000000:00000000 00:00000000 00000000     0        0 107869 1 ffff88022c1e7000 100 0 0 10 0").toList

/-- A comment line (contains `#`). -/
def commentLine : Str := ("# test").toList

/-- Features selecting only the host tcp table. -/
def featTCP : EnableFeatures := { TCP := true }

/-- A file system whose tcp table opens fine but contains one
undecodable data line; every other path fails to open. -/
def fsBadLine : FileSys := fun f =>
  if f = pathTCPTab then some [hdrLine, badLine] else none

/-- A file system whose tcp table has one good data line; every other
path fails to open. -/
def fsOneGood : FileSys := fun f =>
  if f = pathTCPTab then some [hdrLine, goodLine] else none

/-- A file system on which nothing opens. -/
def fsNone : FileSys := fun _ => none

/-- An empty but readable `/proc`. -/
def pfEmpty : ProcModel := { readable := true, entries := [] }

/-- A schedule on which no worker sees the cancelled context. -/
def noCancelW : Nat → Bool := fun _ => false

/-- The `/proc/1` base path. -/
def procBase1 : Str := ("/proc/1").toList

/-- Stat content of pid 1 at the time of a first collection. -/
def statAlpha : Str := ("1 (alpha) R 1 1 1 0 -1 4194560").toList

/-- Stat content of the same pid at the time of a later collection
(the pid was reused / the process renamed itself in between). -/
def statBeta : Str := ("1 (beta) R 1 1 1 0 -1 4194560").toList

/-- The process-name field used to separate the two `getProcName`
variants: a command name that itself contains parentheses. -/
def nestedParens : Str := ("(a(b)c)").toList

/-- Wanted namespace inode strings of the repository's resolver test. -/
def nsInodesEx : List Str := [("net:[1]").toList, ("net:[2]").toList]

/-- Namespace names of the repository's resolver test. -/
def nsNamesEx : List Str := [("netns1").toList, ("netns2").toList]

/-- The three mock processes of the resolver test: pids 1-3, each with
`ns/net -> net:[pid]`. -/
def nsEntriesEx : List NsProcEntry :=
  [{ name := ("1").toList, isDir := true, nsLink := some (("net:[1]").toList) },
   { name := ("2").toList, isDir := true, nsLink := some (("net:[2]").toList) },
   { name := ("3").toList, isDir := true, nsLink := some (("net:[3]").toList) }]

/-! ## Helper lemmas about digits and hexadecimal values -/

theorem digVal_le (c : Char) : digVal c ≤ 15 := by
  unfold digVal hexDigitVal?
  dsimp only
  split_ifs <;> simp <;> omega

theorem natOfDigits_foldl (s : Str) : ∀ a : Nat,
    s.foldl (fun x c => x * 16 + digVal c) a = a * 16 ^ s.length + hexValue s := by
  induction s with
  | nil => intro a; simp [hexValue]
  | cons c cs ih =>
    intro a
    simp only [List.foldl_cons, List.length_cons, hexValue, ih]
    ring

theorem natOfDigits_hex (s : Str) : natOfDigits 16 s = hexValue s := by
  simpa using natOfDigits_foldl s 0

theorem hexValue_lt (s : Str) : hexValue s < 16 ^ s.length := by
  induction s with
  | nil => simp [hexValue]
  | cons c cs ih =>
    have h1 : digVal c * 16 ^ cs.length ≤ 15 * 16 ^ cs.length :=
      Nat.mul_le_mul_right _ (digVal_le c)
    simp only [hexValue, List.length_cons, pow_succ]
    omega

theorem parseUintGo_hex_ok (s : Str) (bits : Nat) (h1 : s ≠ [])
    (h2 : s.all (validDigit 16) = true) (h3 : hexValue s < 2 ^ bits) :
    parseUintGo s 16 bits = .ok (hexValue s) := by
  cases s with
  | nil => exact absurd rfl h1
  | cons c cs =>
    simp only [parseUintGo, List.isEmpty_cons, Bool.false_eq_true, if_false, h2, if_true,
      natOfDigits_hex]
    rw [if_pos h3]

theorem parseUintGo_hex_bad (s : Str) (bits : Nat) (h1 : s ≠ [])
    (h2 : s.all (validDigit 16) = false) :
    parseUintGo s 16 bits = .error .invalidDigits := by
  cases s with
  | nil => exact absurd rfl h1
  | cons c cs =>
    simp only [parseUintGo, List.isEmpty_cons, Bool.false_eq_true, if_false, h2]

theorem splitOnChar_ne_nil (sep : Char) (s : Str) : splitOnChar sep s ≠ [] := by
  cases s with
  | nil => simp [splitOnChar]
  | cons c cs =>
    simp only [splitOnChar]
    split_ifs
    · simp
    · cases h : splitOnChar sep cs <;> simp

theorem splitOnChar_no_sep (sep : Char) (s : Str) (h : sep ∉ s) :
    splitOnChar sep s = [s] := by
  induction s with
  | nil => rfl
  | cons c cs ih =>
    have hc : ¬ c = sep := fun hh => h (hh ▸ List.mem_cons_self c cs)
    have hcs : sep ∉ cs := fun hh => h (List.mem_cons_of_mem c hh)
    simp [splitOnChar, if_neg hc, ih hcs]

theorem splitOnChar_append (sep : Char) (a p : Str) (ha : sep ∉ a) :
    splitOnChar sep (a ++ sep :: p) = a :: splitOnChar sep p := by
  induction a with
  | nil => simp [splitOnChar]
  | cons c cs ih =>
    have hc : ¬ c = sep := fun hh => ha (hh ▸ List.mem_cons_self c cs)
    have hcs : sep ∉ cs := fun hh => ha (List.mem_cons_of_mem c hh)
    simp only [List.cons_append, splitOnChar, if_neg hc, List.append_eq, ih hcs]

theorem parseAddr_fields (a p : Str) (ha : ':' ∉ a) (hp : ':' ∉ p) :
    splitOnChar ':' (a ++ ':' :: p) = [a, p] := by
  rw [splitOnChar_append ':' a p ha, splitOnChar_no_sep ':' p hp]

theorem parseAddr_bad_length (a p : Str) (ha : ':' ∉ a)
    (h8 : a.length ≠ 8) (h32 : a.length ≠ 32) :
    parseAddr (a ++ ':' :: p) = .error (.badFormat a) := by
  have hne := splitOnChar_ne_nil ':' p
  have hpos : 0 < (splitOnChar ':' p).length := List.length_pos.mpr hne
  simp only [parseAddr, splitOnChar_append ':' a p ha]
  rw [if_neg (by simp only [List.length_cons]; omega)]
  simp [h8, h32]

theorem parseAddr_ipv4_dispatch (a p : Str) (ha : ':' ∉ a) (hp : ':' ∉ p)
    (h8 : a.length = 8) :
    parseAddr (a ++ ':' :: p) =
      match parseIPv4 a with
      | .error e => .error (.num e)
      | .ok ip =>
        match parseUintGo p 16 16 with
        | .error e => .error (.num e)
        | .ok v => .ok { ip := ip, port := v } := by
  simp only [parseAddr, parseAddr_fields a p ha hp, List.getD_cons_zero,
    List.getD_cons_succ]
  rw [if_neg (by simp), if_pos h8]
  cases hv : parseIPv4 a with
  | error e => simp
  | ok ip => cases hw : parseUintGo p 16 16 <;> simp

theorem parseAddr_ipv6_dispatch (a p : Str) (ha : ':' ∉ a) (hp : ':' ∉ p)
    (h32 : a.length = 32) :
    parseAddr (a ++ ':' :: p) =
      match parseIPv6 a with
      | .error e => .error e
      | .ok ip =>
        match parseUintGo p 16 16 with
        | .error e => .error (.num e)
        | .ok v => .ok { ip := ip, port := v } := by
  have hne8 : a.length ≠ 8 := by omega
  simp only [parseAddr, parseAddr_fields a p ha hp, List.getD_cons_zero,
    List.getD_cons_succ]
  rw [if_neg (by simp), if_neg hne8, if_pos h32]

theorem parseUintGo_16bits (s : Str) (h1 : s ≠ [])
    (h2 : s.all (validDigit 16) = true) (h3 : 2 ^ 16 ≤ hexValue s) :
    parseUintGo s 16 16 = .error .valueOutOfRange := by
  cases s with
  | nil => exact absurd rfl h1
  | cons c cs =>
    simp only [parseUintGo, List.isEmpty_cons, Bool.false_eq_true, if_false, h2, if_true,
      natOfDigits_hex]
    rw [if_neg (by omega)]

theorem parseIPv6Groups_append8 (a rest : Str) (ha : a.length = 8) :
    parseIPv6Groups (a ++ rest) =
      match parseUintGo a 16 32 with
      | .error e => .error (.num e)
      | .ok u =>
        match parseIPv6Groups rest with
        | .error e => .error e
        | .ok gs => .ok (leBytes4 u :: gs) := by
  rcases a with _ | ⟨c1, a⟩; · simp at ha
  rcases a with _ | ⟨c2, a⟩; · simp at ha
  rcases a with _ | ⟨c3, a⟩; · simp at ha
  rcases a with _ | ⟨c4, a⟩; · simp at ha
  rcases a with _ | ⟨c5, a⟩; · simp at ha
  rcases a with _ | ⟨c6, a⟩; · simp at ha
  rcases a with _ | ⟨c7, a⟩; · simp at ha
  rcases a with _ | ⟨c8, a⟩; · simp at ha
  have hz : a = [] := by
    simp only [List.length_cons] at ha
    exact List.length_eq_zero.mp (by omega)
  subst hz
  rfl

theorem parseUintGo_grp_ok (s : Str) (h1 : s.length = 8)
    (h2 : s.all (validDigit 16) = true) :
    parseUintGo s 16 32 = .ok (hexValue s) := by
  apply parseUintGo_hex_ok s 32 (by intro hs; subst hs; simp at h1) h2
  have h := hexValue_lt s
  rw [h1] at h
  exact lt_of_lt_of_le h (by norm_num)

theorem parseIPv6Groups_valid4 (a b c d : Str)
    (la : a.length = 8) (lb : b.length = 8) (lc : c.length = 8) (ld : d.length = 8)
    (va : a.all (validDigit 16) = true) (vb : b.all (validDigit 16) = true)
    (vc : c.all (validDigit 16) = true) (vd : d.all (validDigit 16) = true) :
    parseIPv6Groups (a ++ b ++ c ++ d) =
      .ok [leBytes4 (hexValue a), leBytes4 (hexValue b),
           leBytes4 (hexValue c), leBytes4 (hexValue d)] := by
  have hd : parseIPv6Groups d = .ok [leBytes4 (hexValue d)] := by
    have h := parseIPv6Groups_append8 d [] ld
    rw [List.append_nil] at h
    rw [h, parseUintGo_grp_ok d ld vd]
    rfl
  have e1 : a ++ b ++ c ++ d = a ++ (b ++ (c ++ d)) := by
    simp [List.append_assoc]
  rw [e1, parseIPv6Groups_append8 a _ la, parseUintGo_grp_ok a la va,
    parseIPv6Groups_append8 b _ lb, parseUintGo_grp_ok b lb vb,
    parseIPv6Groups_append8 c _ lc, parseUintGo_grp_ok c lc vc, hd]

theorem parseIPv6Groups_invalid : ∀ (n : Nat) (s : Str), s.length = 8 * n →
    s.all (validDigit 16) = false →
    parseIPv6Groups s = .error (.num .invalidDigits) := by
  intro n
  induction n with
  | zero =>
    intro s hl hv
    have : s = [] := List.length_eq_zero.mp (by omega)
    subst this
    simp at hv
  | succ m ih =>
    intro s hl hv
    have hsplit := List.take_append_drop 8 s
    have hlt : (s.take 8).length = 8 := by
      rw [List.length_take]
      omega
    have hld : (s.drop 8).length = 8 * m := by
      rw [List.length_drop]
      omega
    rw [← hsplit, parseIPv6Groups_append8 _ _ hlt]
    rw [← hsplit, List.all_append] at hv
    cases ht : (s.take 8).all (validDigit 16) with
    | false =>
      rw [parseUintGo_hex_bad _ 32 (by intro hh; rw [hh] at hlt; simp at hlt) ht]
    | true =>
      rw [parseUintGo_grp_ok _ hlt ht]
      have hdrop : (s.drop 8).all (validDigit 16) = false := by
        rw [ht] at hv
        simpa using hv
      rw [ih (s.drop 8) hld hdrop]

/-! ## Theorems for the claims -/

/-- C6: `parseAddr` splits the endpoint field on `:` and dispatches on
the length of the address part — 8 decodes as IPv4, 32 as IPv6, any
other length is the bad-endpoint-format error — and parses the port as
a base-16 16-bit value whose failure (such as the overflowing
`"FFFF1"`) is the bad-port-format error; in particular
`"0100007F:0035"` decodes to (127.0.0.1, 53). -/
theorem decodeEndpoint_dispatch :
    parseAddr (("0100007F:0035").toList) = .ok { ip := [127, 0, 0, 1], port := 53 } ∧
    (∀ a p : Str, ':' ∉ a → a.length ≠ 8 → a.length ≠ 32 →
        parseAddr (a ++ ':' :: p) = .error (.badFormat a)) ∧
    (∀ a p : Str, ':' ∉ a → ':' ∉ p → a.length = 8 →
        parseAddr (a ++ ':' :: p) =
          match parseIPv4 a with
          | .error e => .error (.num e)
          | .ok ip =>
            match parseUintGo p 16 16 with
            | .error e => .error (.num e)
            | .ok v => .ok { ip := ip, port := v }) ∧
    (∀ a p : Str, ':' ∉ a → ':' ∉ p → a.length = 32 →
        parseAddr (a ++ ':' :: p) =
          match parseIPv6 a with
          | .error e => .error e
          | .ok ip =>
            match parseUintGo p 16 16 with
            | .error e => .error (.num e)
            | .ok v => .ok { ip := ip, port := v }) ∧
    (∀ p : Str, p ≠ [] → p.all (validDigit 16) = true → 2 ^ 16 ≤ hexValue p →
        parseUintGo p 16 16 = .error .valueOutOfRange) ∧
    parseAddr (("0100007F:FFFF1").toList) = .error (.num .valueOutOfRange) ∧
    parseAddr (("gibberish:1111").toList) =
      .error (.badFormat (("gibberish").toList)) := by
  refine ⟨by decide, parseAddr_bad_length, parseAddr_ipv4_dispatch,
    parseAddr_ipv6_dispatch, parseUintGo_16bits, by decide, by decide⟩

/-- C6, witness: the dispatch conjuncts applied at `"0100007F:0035"`
(length 8 → IPv4), `"gibberish"` (length 9 → bad format) and the
overflowing port `"FFFF1"`. -/
theorem decodeEndpoint_dispatch_witness :
    parseAddr ((("gibberish").toList) ++ ':' :: (("1111").toList)) =
      .error (.badFormat (("gibberish").toList)) ∧
    parseAddr ((("0100007F").toList) ++ ':' :: (("0035").toList)) =
      (match parseIPv4 (("0100007F").toList) with
       | .error e => .error (.num e)
       | .ok ip =>
         match parseUintGo (("0035").toList) 16 16 with
         | .error e => .error (.num e)
         | .ok v => .ok { ip := ip, port := v }) ∧
    parseUintGo (("FFFF1").toList) 16 16 = .error .valueOutOfRange :=
  ⟨decodeEndpoint_dispatch.2.1 _ _ (by decide) (by decide) (by decide),
   decodeEndpoint_dispatch.2.2.1 _ _ (by decide) (by decide) (by decide),
   decodeEndpoint_dispatch.2.2.2.2.1 _ (by decide) (by decide) (by decide)⟩

/-- C7: `parseIPv4` reads a valid 8-hex-digit string as one
little-endian 32-bit value and emits its 4 bytes least significant
first (`"0100007F"` → 127.0.0.1); `parseIPv6` reads 32 hex digits as
four little-endian 32-bit groups placed in order
(`"341280FE11107856FF015FE6C65847FE"` →
fe80:1234:5678:1011:e65f:1ff:fe47:58c6); invalid hex digits make
either decoder fail. -/
theorem ipDecode_littleEndian :
    (∀ s : Str, s.length = 8 → s.all (validDigit 16) = true →
        parseIPv4 s = .ok (leBytes4 (hexValue s))) ∧
    (∀ s : Str, s ≠ [] → s.all (validDigit 16) = false →
        parseIPv4 s = .error .invalidDigits) ∧
    (∀ a b c d : Str, a.length = 8 → b.length = 8 → c.length = 8 → d.length = 8 →
        a.all (validDigit 16) = true → b.all (validDigit 16) = true →
        c.all (validDigit 16) = true → d.all (validDigit 16) = true →
        parseIPv6 (a ++ b ++ c ++ d) =
          .ok (leBytes4 (hexValue a) ++ leBytes4 (hexValue b) ++
               leBytes4 (hexValue c) ++ leBytes4 (hexValue d))) ∧
    (∀ s : Str, s.length = 32 → s.all (validDigit 16) = false →
        parseIPv6 s = .error (.num .invalidDigits)) ∧
    parseIPv4 (("0100007F").toList) = .ok [127, 0, 0, 1] ∧
    parseIPv6 (("341280FE11107856FF015FE6C65847FE").toList) =
      .ok [0xfe, 0x80, 0x12, 0x34, 0x56, 0x78, 0x10, 0x11,
           0xe6, 0x5f, 0x01, 0xff, 0xfe, 0x47, 0x58, 0xc6] := by
  refine ⟨?_, ?_, ?_, ?_, by decide, by decide⟩
  · intro s h1 h2
    rw [parseIPv4, parseUintGo_grp_ok s h1 h2]
    rfl
  · intro s h1 h2
    rw [parseIPv4, parseUintGo_hex_bad s 32 h1 h2]
    rfl
  · intro a b c d la lb lc ld va vb vc vd
    rw [parseIPv6, parseIPv6Groups_valid4 a b c d la lb lc ld va vb vc vd]
    simp
  · intro s hl hv
    rw [parseIPv6, parseIPv6Groups_invalid 4 s (by omega) hv]

/-- C7, witness: the general conjuncts applied at the repository's own
test vectors `"0F00000A"` (10.0.0.15) and the non-hex `"gibberis"`. -/
theorem ipDecode_littleEndian_witness :
    parseIPv4 (("0F00000A").toList) =
      .ok (leBytes4 (hexValue (("0F00000A").toList))) ∧
    parseIPv4 (("gibberis").toList) = .error .invalidDigits :=
  ⟨ipDecode_littleEndian.1 _ (by decide) (by decide),
   ipDecode_littleEndian.2.1 _ (by decide) (by decide)⟩

/-- C3: `getProcName` as the claim states it (first `(` to last `)`,
names with inner parentheses returned whole, unbalanced input giving
the empty name) is what the `netstat` package implements; the
`processes` package's `getProcName`, fed the same name field
`"(a(b)c)"`, stops at the *first* `)` and returns `"a(b"` instead of
`"a(b)c"` — the first-to-first behaviour the specification explicitly
rules out. -/
theorem getProcName_firstToFirst_bug :
    getProcName (("(testproc)").toList) = ("testproc").toList ∧
    getProcName ((")vivaldi-bin(").toList) = [] ∧
    getProcNameProcesses ((")vivaldi-bin(").toList) = [] ∧
    getProcName nestedParens = ("a(b)c").toList ∧
    getProcNameProcesses nestedParens = ("a(b").toList := by
  refine ⟨by decide, by decide, by decide, by decide, by decide⟩

/-- C4, counterexample: the state field `0C` (value 12, outside the 11
named states) decodes without error, but the resulting entry's state
is stored verbatim as 12 — and rendering it indexes `skStates[12]`,
out of the 12-entry table (`none` models the runtime panic), so
observation is *not* total and the value is not treated as Unknown. -/
theorem skState_render_out_of_range :
    (parseSocktab5 [hdrLine, lineState0C] NoopFilter5 (("tcp").toList)).map
        (List.map SockTabEntry5.state) = .ok [12] ∧
    skStateString 12 = none := by
  refine ⟨by decide, by decide⟩

/-- C4, amended: any state field that is valid hexadecimal of at most
two digits decodes successfully — out-of-range values are not an
error — but the decoded value is kept verbatim rather than clamped to
Unknown, and rendering via `skStates[s]` is defined exactly for values
0-11 (0 being the `UNKNOWN` slot); for 12-255 it is an
index-out-of-range panic. -/
theorem skState_decode_and_render :
    (∀ s : Str, s ≠ [] → s.all (validDigit 16) = true → s.length ≤ 2 →
        parseUintGo s 16 8 = .ok (hexValue s)) ∧
    (∀ v : Nat, (skStateString v).isSome ↔ v < 12) := by
  constructor
  · intro s h1 h2 h3
    apply parseUintGo_hex_ok s 8 h1 h2
    have h4 := hexValue_lt s
    have h5 : (16 : Nat) ^ s.length ≤ 16 ^ 2 :=
      Nat.pow_le_pow_right (by norm_num) h3
    calc hexValue s < 16 ^ s.length := h4
      _ ≤ 16 ^ 2 := h5
      _ ≤ 2 ^ 8 := by norm_num
  · intro v
    rw [skStateString, Option.isSome_iff_ne_none, Ne, List.get?_eq_none]
    show ¬ 12 ≤ v ↔ v < 12
    omega

/-- C4, witness for the amended statement: the state field `"0B"`
(11, CLOSING) decodes to 11 and renders; 12 does not render. -/
theorem skState_decode_and_render_witness :
    parseUintGo (("0B").toList) 16 8 = .ok (hexValue (("0B").toList)) ∧
    ((skStateString 11).isSome ↔ 11 < 12) ∧
    ((skStateString 12).isSome ↔ 12 < 12) :=
  ⟨skState_decode_and_render.1 (("0B").toList) (by decide) (by decide) (by decide),
   skState_decode_and_render.2 11, skState_decode_and_render.2 12⟩

/-- C9: `processCache` in `netstat_linux.go` is a package-level
`sync.Map` that is never cleared, so a `Process` stored during one
`Netstat` call is served — stale — to a later call.  With the cache
carried over, a second resolution of `/proc/1` still answers `alpha`
although the stat file now reads `beta`; a fresh (invocation-scoped)
cache, as the `processes` package creates per call, answers `beta`. -/
theorem processCache_leaks_across_calls :
    (getProcess [] procBase1 1 (some statAlpha)).1 =
      some { pid := 1, name := ("alpha").toList } ∧
    (getProcess (getProcess [] procBase1 1 (some statAlpha)).2
        procBase1 1 (some statBeta)).1 =
      some { pid := 1, name := ("alpha").toList } ∧
    (getProcess [] procBase1 1 (some statBeta)).1 =
      some { pid := 1, name := ("beta").toList } ∧
    (getProcessP0 [] 1 (some statBeta)).1 = { pid := 1, name := ("beta").toList } := by
  refine ⟨by decide, by decide, by decide, by decide⟩

theorem parseSockTabLines_all (tr : Str) : ∀ ls : List Str,
    (∀ l ∈ ls, exceptOk (decodeLineGo tr l) = true) →
    ∃ tab, parseSockTabLines NoopFilter tr ls = .ok tab ∧ tab.length = ls.length := by
  intro ls
  induction ls with
  | nil => exact fun _ => ⟨[], rfl, rfl⟩
  | cons l rest ih =>
    intro h
    have hl := h l (List.mem_cons_self l rest)
    obtain ⟨tab, htab, hlen⟩ := ih (fun x hx => h x (List.mem_cons_of_mem l hx))
    cases he : decodeLineGo tr l with
    | error e => rw [he] at hl; simp [exceptOk] at hl
    | ok e =>
      refine ⟨e :: tab, ?_, by simp [hlen]⟩
      simp [parseSockTabLines, he, htab, NoopFilter]

theorem parseSockTabLines_reject (tr : Str) : ∀ ls : List Str,
    (∀ l ∈ ls, exceptOk (decodeLineGo tr l) = true) →
    parseSockTabLines rejectAllFilter tr ls = .ok [] := by
  intro ls
  induction ls with
  | nil => exact fun _ => rfl
  | cons l rest ih =>
    intro h
    have hl := h l (List.mem_cons_self l rest)
    have htab := ih (fun x hx => h x (List.mem_cons_of_mem l hx))
    cases he : decodeLineGo tr l with
    | error e => rw [he] at hl; simp [exceptOk] at hl
    | ok e => simp [parseSockTabLines, he, htab, rejectAllFilter]

theorem parseSocktab5Lines_all (proto : Str) : ∀ ls : List Str,
    (∀ l ∈ ls, '#' ∉ l ∧ exceptOk (decodeLine5 proto l) = true) →
    ∃ tab, parseSocktab5Lines NoopFilter5 proto ls = .ok tab ∧ tab.length = ls.length := by
  intro ls
  induction ls with
  | nil => exact fun _ => ⟨[], rfl, rfl⟩
  | cons l rest ih =>
    intro h
    obtain ⟨hsharp, hl⟩ := h l (List.mem_cons_self l rest)
    obtain ⟨tab, htab, hlen⟩ := ih (fun x hx => h x (List.mem_cons_of_mem l hx))
    cases he : decodeLine5 proto l with
    | error e => rw [he] at hl; simp [exceptOk] at hl
    | ok e =>
      refine ⟨e :: tab, ?_, by simp [hlen]⟩
      simp [parseSocktab5Lines, hsharp, he, htab, NoopFilter5]

theorem parseSocktab5Lines_reject (proto : Str) : ∀ ls : List Str,
    (∀ l ∈ ls, '#' ∉ l ∧ exceptOk (decodeLine5 proto l) = true) →
    parseSocktab5Lines rejectAllFilter5 proto ls = .ok [] := by
  intro ls
  induction ls with
  | nil => exact fun _ => rfl
  | cons l rest ih =>
    intro h
    obtain ⟨hsharp, hl⟩ := h l (List.mem_cons_self l rest)
    have htab := ih (fun x hx => h x (List.mem_cons_of_mem l hx))
    cases he : decodeLine5 proto l with
    | error e => rw [he] at hl; simp [exceptOk] at hl
    | ok e => simp [parseSocktab5Lines, hsharp, he, htab, rejectAllFilter5]

/-- C5: on a table whose first line is a header and whose further lines
are well-formed data lines, both parsers always discard the header
(whatever it holds, it is never decoded), return exactly one entry per
data line under the accept-everything filter, and return zero entries
and no error under the reject-everything filter. -/
theorem parse_header_and_filter :
    (∀ (header : Str) (ls : List Str) (tr : Str),
        (∀ l ∈ ls, exceptOk (decodeLineGo tr l) = true) →
        (∃ tab, parseSockTab (header :: ls) NoopFilter tr = .ok tab ∧
            tab.length = ls.length) ∧
        parseSockTab (header :: ls) rejectAllFilter tr = .ok []) ∧
    (∀ (header : Str) (ls : List Str) (proto : Str),
        (∀ l ∈ ls, '#' ∉ l ∧ exceptOk (decodeLine5 proto l) = true) →
        (∃ tab, parseSocktab5 (header :: ls) NoopFilter5 proto = .ok tab ∧
            tab.length = ls.length) ∧
        parseSocktab5 (header :: ls) rejectAllFilter5 proto = .ok []) := by
  constructor
  · intro header ls tr h
    constructor
    · simpa [parseSockTab] using parseSockTabLines_all tr ls h
    · simpa [parseSockTab] using parseSockTabLines_reject tr ls h
  · intro header ls proto h
    constructor
    · simpa [parseSocktab5] using parseSocktab5Lines_all proto ls h
    · simpa [parseSocktab5] using parseSocktab5Lines_reject proto ls h

/-- C5, witness: a one-data-line table (the repository's own test
line) behind an arbitrary header. -/
theorem parse_header_and_filter_witness :
    ((∃ tab, parseSockTab [hdrLine, goodLine] NoopFilter (("tcp").toList) = .ok tab ∧
        tab.length = 1) ∧
      parseSockTab [hdrLine, goodLine] rejectAllFilter (("tcp").toList) = .ok []) ∧
    ((∃ tab, parseSocktab5 [hdrLine, goodLine] NoopFilter5 (("tcp").toList) = .ok tab ∧
        tab.length = 1) ∧
      parseSocktab5 [hdrLine, goodLine] rejectAllFilter5 (("tcp").toList) = .ok []) :=
  ⟨parse_header_and_filter.1 hdrLine [goodLine] (("tcp").toList)
      (by intro l hl; rw [List.mem_singleton] at hl; subst hl; decide),
   parse_header_and_filter.2 hdrLine [goodLine] (("tcp").toList)
      (by intro l hl; rw [List.mem_singleton] at hl; subst hl; exact ⟨by decide, by decide⟩)⟩

theorem parseSocktab5Lines_comment (fn : AcceptFn5) (proto line : Str)
    (post : List Str) (h : '#' ∈ line) : ∀ pre : List Str,
    parseSocktab5Lines fn proto (pre ++ line :: post) =
      parseSocktab5Lines fn proto (pre ++ post) := by
  intro pre
  induction pre with
  | nil => simp [parseSocktab5Lines, h]
  | cons x pre ih =>
    simp only [List.cons_append, parseSocktab5Lines, List.append_eq, ih]

/-- C10: in the sequential parser, a data line containing `#` anywhere
is dropped before decoding — it contributes no entry and no error,
whatever else it holds, so removing it from the table leaves the parse
result unchanged. -/
theorem comment_lines_skipped (header : Str) (pre post : List Str) (line : Str)
    (fn : AcceptFn5) (proto : Str) (h : '#' ∈ line) :
    parseSocktab5 (header :: (pre ++ line :: post)) fn proto =
      parseSocktab5 (header :: (pre ++ post)) fn proto := by
  simp only [parseSocktab5, List.drop_succ_cons, List.drop_zero]
  exact parseSocktab5Lines_comment fn proto line post h pre

/-- C10, witness: a malformed comment line sitting between the header
and a good data line changes nothing. -/
theorem comment_lines_skipped_witness :
    '#' ∈ commentLine ∧
    parseSocktab5 (hdrLine :: ([] ++ commentLine :: [goodLine])) NoopFilter5
        (("tcp").toList) =
      parseSocktab5 (hdrLine :: ([] ++ [goodLine])) NoopFilter5 (("tcp").toList) :=
  ⟨by decide,
   comment_lines_skipped hdrLine [] [goodLine] commentLine NoopFilter5
     (("tcp").toList) (by decide)⟩

theorem mergeChannels_none_no_cancel (outs : List (List SockTabEntry)) :
    (mergeChannels none outs).2 = false := by
  induction outs with
  | nil => rfl
  | cons o rest ih => simp [mergeChannels, ih]

theorem netstat5Loop_ok_iff (fs : FileSys) (fn : AcceptFn5) : ∀ l : List Str,
    (∃ r, netstat5Loop fs fn l = .ok r) ↔
      ∀ f ∈ l, ∃ t, openParse5 fs fn f = .ok t := by
  intro l
  induction l with
  | nil => simp [netstat5Loop]
  | cons f rest ih =>
    constructor
    · rintro ⟨r, hr⟩ g hg
      revert hr
      simp only [netstat5Loop]
      cases hf : openParse5 fs fn f with
      | error e => intro hr; exact absurd hr (by simp)
      | ok t =>
        cases hl : netstat5Loop fs fn rest with
        | error e => intro hr; exact absurd hr (by simp)
        | ok more =>
          intro _
          rcases List.mem_cons.mp hg with hgf | hgr
          · exact ⟨t, hgf ▸ hf⟩
          · exact ih.mp ⟨more, hl⟩ g hgr
    · intro h
      obtain ⟨t, ht⟩ := h f (List.mem_cons_self f rest)
      obtain ⟨r, hr⟩ := ih.mpr (fun g hg => h g (List.mem_cons_of_mem f hg))
      exact ⟨t ++ r, by simp [netstat5Loop, ht, hr]⟩

/-- C1, counterexample: with the tcp table readable but holding one
undecodable data line, the concurrent `Netstat` returns *no* error
(the decode failure is swallowed into an empty contribution), against
the claim that a decode failure aborts the call; and with a file that
cannot be opened, the sequential `Netstat` *fails* with the open
error, against the claim that unopenable files are silently skipped. -/
theorem collect_error_policy_counterexample :
    openFileStream fsBadLine pathTCPTab NoopFilter = .error .scanFailed ∧
    (NetstatGo fsBadLine pfEmpty [] featTCP NoopFilter noCancelW none).err = none ∧
    Netstat5 fsNone pfEmpty NoopFilter5 = .error .fileOpen := by
  refine ⟨by decide, by decide, by decide⟩

/-- C1, amended: in the concurrent `Netstat`, a file that cannot be
opened *or* whose contents fail to decode is silently skipped (that
worker contributes an empty slice), and an uncancelled call never
returns an error of any kind; in the sequential `Netstat`, the call
succeeds exactly when every one of its four protocol files both opens
and decodes, so an unopenable file or a decode failure each aborts the
whole call with that error. -/
theorem collect_error_policy :
    (∀ (fs : FileSys) (pf : ProcModel) (cache0 : Cache) (feature : EnableFeatures)
        (fn : AcceptFn) (cw : Nat → Bool),
        (NetstatGo fs pf cache0 feature fn cw none).err = none) ∧
    (∀ (fs : FileSys) (pf : ProcModel) (fn : AcceptFn5),
        (∃ r, Netstat5 fs pf fn = .ok r) ↔
          ∀ f ∈ files5, ∃ t, openParse5 fs fn f = .ok t) := by
  constructor
  · intro fs pf cache0 feature fn cw
    simp only [NetstatGo, mergeChannels_none_no_cancel, Bool.false_eq_true, if_false]
    split <;> rfl
  · intro fs pf fn
    constructor
    · rintro ⟨r, hr⟩
      revert hr
      unfold Netstat5
      cases hl : netstat5Loop fs fn files5 with
      | error e => intro hr; exact absurd hr (by simp)
      | ok c => exact fun _ => (netstat5Loop_ok_iff fs fn files5).mp ⟨c, hl⟩
    · intro h
      obtain ⟨c, hc⟩ := (netstat5Loop_ok_iff fs fn files5).mpr h
      exact ⟨_, by unfold Netstat5; rw [hc]⟩

theorem workerOutputs_length (fs : FileSys) (fn : AcceptFn) (cw : Nat → Bool) :
    ∀ (files : List Str) (i : Nat),
      (workerOutputs fs fn cw i files).length = files.length := by
  intro files
  induction files with
  | nil => intro i; rfl
  | cons f rest ih => intro i; simp [workerOutputs, ih (i + 1)]

theorem mergeChannels_cancel_hit (outs : List (List SockTabEntry)) :
    ∀ k, k < outs.length → (mergeChannels (some k) outs).2 = true := by
  induction outs with
  | nil => intro k hk; simp at hk
  | cons o rest ih =>
    intro k hk
    cases k with
    | zero => rfl
    | succ m =>
      simp only [mergeChannels]
      exact ih m (by simpa using hk)

theorem mergeChannels_length_le (outs : List (List SockTabEntry)) :
    ∀ c, (mergeChannels c outs).1.length ≤ (outs.map List.length).sum := by
  induction outs with
  | nil => intro c; cases c <;> simp [mergeChannels]
  | cons o rest ih =>
    intro c
    cases c with
    | none =>
      simp only [mergeChannels, List.map_cons, List.sum_cons, List.length_append]
      have := ih none
      omega
    | some k =>
      cases k with
      | zero => simp [mergeChannels]
      | succ m =>
        simp only [mergeChannels, List.map_cons, List.sum_cons, List.length_append]
        have := ih (some m)
        omega

theorem workerOutputs_sum_le (fs : FileSys) (fn : AcceptFn) (cw : Nat → Bool) :
    ∀ (files : List Str) (i : Nat),
      ((workerOutputs fs fn cw i files).map List.length).sum ≤
        (files.map (fileEntryCount fs fn)).sum := by
  intro files
  induction files with
  | nil => intro i; simp [workerOutputs]
  | cons f rest ih =>
    intro i
    simp only [workerOutputs, List.map_cons, List.sum_cons]
    have h1 : (workerOutput fs fn (cw i) f).length ≤ fileEntryCount fs fn f := by
      unfold workerOutput fileEntryCount
      split
      · simp
      · cases h : openFileStream fs f fn <;> simp
    have h2 := ih (i + 1)
    omega

/-- C2: whenever the merge loop's `select` takes the cancellation
branch before all per-file channels have been read (`k` strictly below
the number of selected files), the concurrent `Netstat` returns the
cancellation error together with the entries merged so far — a slice
never larger than the total number of filter-matching entries in all
selected files — whatever the worker-side cancellation schedule was.
(The model is a total function: no schedule makes it panic.) -/
theorem netstat_cancelled_partial (fs : FileSys) (pf : ProcModel) (cache0 : Cache)
    (feature : EnableFeatures) (fn : AcceptFn) (cw : Nat → Bool) (k : Nat)
    (hk : k < (procFiles feature).length) :
    (NetstatGo fs pf cache0 feature fn cw (some k)).err = some .ctxCanceled ∧
    (NetstatGo fs pf cache0 feature fn cw (some k)).tabs.length ≤
      totalMatching fs feature fn := by
  have hhit := mergeChannels_cancel_hit (workerOutputs fs fn cw 0 (procFiles feature)) k
    (by rw [workerOutputs_length fs fn cw (procFiles feature) 0]; exact hk)
  constructor
  · simp only [NetstatGo, hhit, if_true]
  · simp only [NetstatGo, hhit, if_true]
    calc (mergeChannels (some k) (workerOutputs fs fn cw 0 (procFiles feature))).1.length
        ≤ ((workerOutputs fs fn cw 0 (procFiles feature)).map List.length).sum :=
          mergeChannels_length_le _ _
      _ ≤ ((procFiles feature).map (fileEntryCount fs fn)).sum :=
          workerOutputs_sum_le fs fn cw (procFiles feature) 0
      _ = totalMatching fs feature fn := rfl

/-- C2, witness: cancelling at the first merge step of a one-file
collection over a readable tcp table. -/
theorem netstat_cancelled_partial_witness :
    0 < (procFiles featTCP).length ∧
    ((NetstatGo fsOneGood pfEmpty [] featTCP NoopFilter noCancelW (some 0)).err =
        some .ctxCanceled ∧
      (NetstatGo fsOneGood pfEmpty [] featTCP NoopFilter noCancelW (some 0)).tabs.length ≤
        totalMatching fsOneGood featTCP NoopFilter) :=
  ⟨by decide,
   netstat_cancelled_partial fsOneGood pfEmpty [] featTCP NoopFilter noCancelW 0
     (by decide)⟩

theorem mapGet?_mapDelete (kd key : Str) : ∀ m : List (Str × Nat),
    mapGet? (mapDelete m kd) key = if key = kd then none else mapGet? m key := by
  intro m
  induction m with
  | nil => by_cases h : key = kd <;> simp [mapDelete, mapGet?, h]
  | cons p rest ih =>
    obtain ⟨k, v⟩ := p
    by_cases hk : k = kd
    · subst hk
      rw [show mapDelete ((k, v) :: rest) k = mapDelete rest k from by
        simp [mapDelete], ih]
      by_cases hkey : key = k
      · simp [hkey]
      · have hk2 : ¬ k = key := fun h => hkey h.symm
        simp [mapGet?, hkey, hk2]
    · rw [show mapDelete ((k, v) :: rest) kd = (k, v) :: mapDelete rest kd from by
        simp [mapDelete, hk]]
      by_cases hkey : k = key
      · subst hkey
        simp [mapGet?, hk]
      · simp [mapGet?, hkey, ih]

theorem mapGet?_mapSet (m : List (Str × Nat)) (k : Str) (v : Nat) (key : Str) :
    mapGet? (mapSet m k v) key = if key = k then some v else mapGet? m key := by
  by_cases hkey : key = k
  · subst hkey
    simp [mapSet, mapGet?]
  · have hk2 : ¬ k = key := fun h => hkey h.symm
    simp [mapSet, mapGet?, hk2, mapGet?_mapDelete, hkey]

theorem mapGet?_buildAux (t : Str) : ∀ (l : List Str) (acc : List (Str × Nat)) (i : Nat),
    (mapGet? (buildInodeToFindAux acc i l) t).isSome = true ↔
      t ∈ l ∨ (mapGet? acc t).isSome = true := by
  intro l
  induction l with
  | nil => simp [buildInodeToFindAux]
  | cons f rest ih =>
    intro acc i
    rw [show buildInodeToFindAux acc i (f :: rest) =
        buildInodeToFindAux (mapSet acc f i) (i + 1) rest from rfl, ih]
    by_cases hf : t = f
    · subst hf
      simp [mapGet?_mapSet]
    · simp [mapGet?_mapSet, hf, List.mem_cons]

theorem mapGet?_build (inodes : List Str) (t : Str) :
    (mapGet? (buildInodeToFind inodes) t).isSome = true ↔ t ∈ inodes := by
  rw [buildInodeToFind, mapGet?_buildAux t inodes [] 0]
  simp [mapGet?]

theorem nsStep_isSome (inodes names : List Str) (e : NsProcEntry) :
    (nsStep names (buildInodeToFind inodes) e).isSome = nsEntryMatches inodes names e := by
  unfold nsStep nsEntryMatches
  by_cases hd : e.isDir = true
  · cases hp : parsePid32 e.name with
    | none => simp [hd, hp]
    | some pid =>
      cases hl : e.nsLink with
      | none => simp [hd, hp, hl]
      | some t =>
        cases hm : mapGet? (buildInodeToFind inodes) t with
        | none =>
          have hmem : ¬ t ∈ inodes := by
            intro hmem2
            have h2 := (mapGet?_build inodes t).mpr hmem2
            rw [hm] at h2
            simp at h2
          simp [hd, hp, hl, hm, hmem]
        | some i =>
          have hmem : t ∈ inodes := (mapGet?_build inodes t).mp (by rw [hm]; rfl)
          by_cases hn : 0 < names.length
          · simp [hd, hp, hl, hm, hmem, hn]
          · simp [hd, hp, hl, hm, hmem, hn]
  · simp [hd]

theorem nsFold_suffix (names : List Str) : ∀ (entries : List NsProcEntry)
    (acc : List (Nat × Str)) (toFind : List (Str × Nat)),
    ∃ pre, nsFold names entries acc toFind = pre ++ acc := by
  intro entries
  induction entries with
  | nil => intro acc toFind; exact ⟨[], rfl⟩
  | cons e rest ih =>
    intro acc toFind
    simp only [nsFold]
    cases hs : nsStep names toFind e with
    | none => exact ih acc toFind
    | some pt =>
      obtain ⟨pn, tg⟩ := pt
      obtain ⟨pre, hp⟩ := ih (pn :: acc) (mapDelete toFind tg)
      refine ⟨pre ++ [pn], ?_⟩
      show nsFold names rest (pn :: acc) (mapDelete toFind tg) = pre ++ [pn] ++ acc
      rw [hp]
      simp

theorem nsFold_nil_iff (names : List Str) : ∀ (entries : List NsProcEntry)
    (acc : List (Nat × Str)) (toFind : List (Str × Nat)),
    nsFold names entries acc toFind = [] ↔
      acc = [] ∧ ∀ e ∈ entries, nsStep names toFind e = none := by
  intro entries
  induction entries with
  | nil => intro acc toFind; simp [nsFold]
  | cons e rest ih =>
    intro acc toFind
    simp only [nsFold]
    cases hs : nsStep names toFind e with
    | none =>
      rw [ih acc toFind]
      constructor
      · rintro ⟨h1, h2⟩
        refine ⟨h1, fun x hx => ?_⟩
        rcases List.mem_cons.mp hx with hxe | hxr
        · subst hxe; exact hs
        · exact h2 x hxr
      · rintro ⟨h1, h2⟩
        exact ⟨h1, fun x hx => h2 x (List.mem_cons_of_mem e hx)⟩
    | some pt =>
      obtain ⟨pn, tg⟩ := pt
      constructor
      · intro h
        have h2 : nsFold names rest (pn :: acc) (mapDelete toFind tg) = [] := h
        obtain ⟨pre, hp⟩ := nsFold_suffix names rest (pn :: acc) (mapDelete toFind tg)
        rw [hp] at h2
        simp at h2
      · rintro ⟨_, h2⟩
        have := h2 e (List.mem_cons_self e rest)
        rw [hs] at this
        cases this

/-- C8: `getPidofNetNsFromProcInodes` fails with the no-match error
exactly when not a single process matches any wanted namespace inode
(in particular when the wanted inode list, or the name list the
`len(netNSNames) > 0` guard checks, is empty); when at least one
process matches, the partial mapping built so far is returned with no
error at all.  (The length hypothesis pins the only region where Go is
defined: `GetNetNsPids` always passes name and inode lists of equal
length, and an empty name list short-circuits before any indexing.) -/
theorem ns_noMatch_exactly_on_zero (inodes names : List Str)
    (entries : List NsProcEntry)
    (hlen : names = [] ∨ names.length = inodes.length) :
    (getPidofNetNsFromProcInodes inodes names true entries = .error .noMatch ↔
      entries.countP (nsEntryMatches inodes names) = 0) ∧
    (entries.countP (nsEntryMatches inodes names) ≠ 0 →
      ∃ m, getPidofNetNsFromProcInodes inodes names true entries = .ok m ∧ m ≠ []) := by
  have hstep : ∀ e ∈ entries,
      (nsStep names (buildInodeToFind inodes) e = none ↔
        ¬ nsEntryMatches inodes names e = true) := by
    intro e _
    rw [← nsStep_isSome inodes names e]
    cases nsStep names (buildInodeToFind inodes) e <;> simp
  have hcount : entries.countP (nsEntryMatches inodes names) = 0 ↔
      ∀ e ∈ entries, nsStep names (buildInodeToFind inodes) e = none := by
    rw [List.countP_eq_zero]
    constructor
    · intro h e he; exact (hstep e he).mpr (h e he)
    · intro h e he; exact (hstep e he).mp (h e he)
  have hnil : nsFold names entries [] (buildInodeToFind inodes) = [] ↔
      entries.countP (nsEntryMatches inodes names) = 0 := by
    rw [nsFold_nil_iff names entries [] (buildInodeToFind inodes), hcount]
    simp
  constructor
  · rw [getPidofNetNsFromProcInodes, if_pos rfl]
    by_cases hm : (nsFold names entries [] (buildInodeToFind inodes)).isEmpty
    · rw [if_pos hm]
      simp only [true_iff]
      rw [← hnil, ← List.isEmpty_iff]
      exact hm
    · rw [if_neg hm]
      constructor
      · intro h; cases h
      · intro h
        rw [← hnil, ← List.isEmpty_iff] at h
        exact absurd h hm
  · intro h
    rw [getPidofNetNsFromProcInodes, if_pos rfl]
    have hm : ¬ (nsFold names entries [] (buildInodeToFind inodes)).isEmpty = true := by
      rw [List.isEmpty_iff, hnil]
      exact h
    rw [if_neg hm]
    refine ⟨_, rfl, ?_⟩
    intro hh
    exact hm (List.isEmpty_iff.mpr hh)

/-- C8, witness: the repository test's scenario — two wanted inodes,
two names, three processes of which two match — returns the partial
map without error; and its truncation to zero wanted inodes errors. -/
theorem ns_noMatch_exactly_on_zero_witness :
    (nsNamesEx = [] ∨ nsNamesEx.length = nsInodesEx.length) ∧
    ((getPidofNetNsFromProcInodes nsInodesEx nsNamesEx true nsEntriesEx =
        .error .noMatch ↔
      nsEntriesEx.countP (nsEntryMatches nsInodesEx nsNamesEx) = 0) ∧
    (nsEntriesEx.countP (nsEntryMatches nsInodesEx nsNamesEx) ≠ 0 →
      ∃ m, getPidofNetNsFromProcInodes nsInodesEx nsNamesEx true nsEntriesEx =
          .ok m ∧ m ≠ [])) :=
  ⟨Or.inr (by decide),
   ns_noMatch_exactly_on_zero nsInodesEx nsNamesEx nsEntriesEx (Or.inr (by decide))⟩

end GoNetstat
